import Mathlib

/-!
Verification of the List Operator node (`api/core/workflow/nodes/list_operator/node.py`).

The node evaluates a configured pipeline (filter → extract → order → limit) over a
variable holding an array of files, numbers or strings.  Python strings are embedded as
`String`, Python numbers as `ℚ`, Python exceptions as an explicit `Except PyErr` channel:
typed `ListOperatorError` subclasses are caught by `_run`'s handler, a bare `ValueError`
escapes it.
-/

namespace ListOperator

/-- Modelled from the spec: the error taxonomy of `exc.py` is not among the sources.
Per the spec, InvalidFilterValue, InvalidKey and InvalidCondition are the typed domain
errors (subclasses of `ListOperatorError`) that the controller converts to a failed run
result, while a bare `ValueError` is a generic, untyped error outside that hierarchy. -/
inductive PyErr
  | valueError
  | invalidFilterValueError
  | invalidKeyError
  | invalidConditionError
deriving DecidableEq, Repr

/-- Modelled from the spec: which exceptions the controller's `except ListOperatorError`
handler catches — the three typed domain errors, but not a bare `ValueError`. -/
def PyErr.isListOperatorError : PyErr → Bool
  | .valueError => false
  | .invalidFilterValueError => true
  | .invalidKeyError => true
  | .invalidConditionError => true

/-- Modelled from the spec: the FileDescriptor record
`{ filename?, extension?, mimeType?, transferMethod, remoteUrl?, size }` plus the
`type` attribute used by the `type` filter key (`core.file.File` is not among the
sources).  Enum-valued attributes are embedded as strings. -/
structure File where
  filename : Option String
  ftype : String
  extension : Option String
  mime_type : Option String
  transfer_method : String
  remote_url : Option String
  size : Int
deriving DecidableEq, Repr

/-- `_get_file_extract_number_func`: only the key `"size"` is numeric. -/
def getFileExtractNumberFunc (key : String) : Except PyErr (File → Int) :=
  if key = "size" then .ok (fun x => x.size)
  else .error .invalidKeyError

/-- `_get_file_extract_string_func`: string-valued file attributes; `x.filename or ""`
becomes `getD ""`. -/
def getFileExtractStringFunc (key : String) : Except PyErr (File → String) :=
  if key = "name" then .ok (fun x => x.filename.getD (""))
  else if key = "type" then .ok (fun x => x.ftype)
  else if key = "extension" then .ok (fun x => x.extension.getD (""))
  else if key = "mime_type" then .ok (fun x => x.mime_type.getD (""))
  else if key = "transfer_method" then .ok (fun x => x.transfer_method)
  else if key = "url" then .ok (fun x => x.remote_url.getD (""))
  else .error .invalidKeyError

/-- `_contains(value) = lambda x: value in x` — Python substring containment. -/
def strContains (value : String) : String → Bool :=
  fun x => decide (value.data <:+: x.data)

/-- `_startswith(value) = lambda x: x.startswith(value)`. -/
def strStartsWith (value : String) : String → Bool :=
  fun x => decide (value.data <+: x.data)

/-- `_endswith(value) = lambda x: x.endswith(value)`. -/
def strEndsWith (value : String) : String → Bool :=
  fun x => decide (value.data <:+ x.data)

/-- `_is(value) = lambda x: x == value`. -/
def strIs (value : String) : String → Bool :=
  fun x => decide (x = value)

/-- `_in(value) = lambda x: x in value` with a string container — Python substring
containment of the element inside the operand. -/
def strIn (value : String) : String → Bool :=
  fun x => decide (x.data <:+: value.data)

/-- `_get_string_filter_func`: dispatch over the string comparison operators; an
unrecognized operator raises `InvalidConditionError`. -/
def getStringFilterFunc (condition : String) (value : String) :
    Except PyErr (String → Bool) :=
  if condition = "contains" then .ok (strContains value)
  else if condition = "start with" then .ok (strStartsWith value)
  else if condition = "end with" then .ok (strEndsWith value)
  else if condition = "is" then .ok (strIs value)
  else if condition = "in" then .ok (strIn value)
  else if condition = "empty" then .ok (fun x => decide (x = ""))
  else if condition = "not contains" then .ok (fun x => !(strContains value x))
  else if condition = "is not" then .ok (fun x => !(strIs value x))
  else if condition = "not in" then .ok (fun x => !(strIn value x))
  else if condition = "not empty" then .ok (fun x => decide (x ≠ ""))
  else .error .invalidConditionError

/-- Modelled from the spec: a filter condition's operand is a literal-or-template
string, or (File kind, `in`/`not in`) a sequence of strings. -/
inductive CondValue
  | cstr (s : String)
  | cseq (l : List String)
deriving DecidableEq, Repr

/-- Python `x in value` where `value` is either a string (substring containment — a
`str` is a `Sequence`) or a list of strings (membership). -/
def seqContains : CondValue → String → Bool
  | .cstr container, x => decide (x.data <:+: container.data)
  | .cseq l, x => l.contains x

/-- `_get_sequence_filter_func`: only `in` / `not in` are valid. -/
def getSequenceFilterFunc (condition : String) (value : CondValue) :
    Except PyErr (String → Bool) :=
  if condition = "in" then .ok (seqContains value)
  else if condition = "not in" then .ok (fun x => !(seqContains value x))
  else .error .invalidConditionError

/-- `_get_number_filter_func`: numeric comparison operators. -/
def getNumberFilterFunc (condition : String) (value : ℚ) :
    Except PyErr (ℚ → Bool) :=
  if condition = "=" then .ok (fun x => decide (x = value))
  else if condition = "≠" then .ok (fun x => decide (x ≠ value))
  else if condition = "<" then .ok (fun x => decide (x < value))
  else if condition = "≤" then .ok (fun x => decide (x ≤ value))
  else if condition = ">" then .ok (fun x => decide (x > value))
  else if condition = "≥" then .ok (fun x => decide (x ≥ value))
  else .error .invalidConditionError

/-- Decimal digit list to its numeric value (total on digit lists). -/
def natOfDigits (l : List Char) : Nat :=
  l.foldl (fun a c => a * 10 + (c.toNat - 48)) 0

/-- A non-empty all-digit list parses; anything else does not. -/
def digitsToNat (l : List Char) : Option Nat :=
  if l ≠ [] ∧ l.all Char.isDigit then some (natOfDigits l) else none

/-- Embedding of Python `int(text)` on the resolved serial: an optional sign followed
by decimal digits; any other shape raises `ValueError`. -/
def parseIntStr (s : String) : Option Int :=
  match s.data with
  | '-' :: rest => (digitsToNat rest).map (fun n => -(n : Int))
  | '+' :: rest => (digitsToNat rest).map (fun n => (n : Int))
  | l => (digitsToNat l).map (fun n => (n : Int))

/-- Unsigned decimal: digits, optionally a point and more digits, at least one digit. -/
def parseUnsignedDec (l : List Char) : Option ℚ :=
  let ip := l.takeWhile Char.isDigit
  match l.dropWhile Char.isDigit with
  | [] => if ip = [] then none else some ((natOfDigits ip : ℚ))
  | '.' :: frac =>
    if frac.all Char.isDigit ∧ ¬(ip = [] ∧ frac = []) then
      some ((natOfDigits ip : ℚ) + (natOfDigits frac : ℚ) / ((10 : ℚ) ^ frac.length))
    else none
  | _ => none

/-- Embedding of Python `float(text)` on the resolved numeric operand: an optional
sign followed by an unsigned decimal; any other shape raises `ValueError`. -/
def parseFloatStr (s : String) : Option ℚ :=
  match s.data with
  | '-' :: rest => (parseUnsignedDec rest).map (fun q => -q)
  | '+' :: rest => parseUnsignedDec rest
  | l => parseUnsignedDec l

/-- The direction literal of the order stage (`Literal["asc", "desc"]`). -/
inductive SortDir
  | asc
  | desc
deriving DecidableEq, Repr

/-- Stable insertion of `x`: it goes in front of the first `y` whose key it may
precede, so among equal keys the inserted (earlier-in-input) element comes first. -/
def insertByKey {α κ : Type} (le : κ → κ → Bool) (key : α → κ) (x : α) :
    List α → List α
  | [] => [x]
  | y :: ys => if le (key x) (key y) then x :: y :: ys else y :: insertByKey le key x ys

/-- Embedding of Python `sorted(array, key=key, reverse=...)`: a stable sort.  For a
total preorder on keys the stable result is unique, so stable insertion sort produces
the same list as Timsort; `reverse=True` is the stable descending order, obtained here
by flipping the key comparison (see `dirLe`). -/
def sortByKey {α κ : Type} (le : κ → κ → Bool) (key : α → κ) : List α → List α
  | [] => []
  | x :: xs => insertByKey le key x (sortByKey le key xs)

/-- Key comparison for a direction: `asc` uses `le`, `desc` (`reverse=True`) flips it. -/
def dirLe {κ : Type} (le : κ → κ → Bool) : SortDir → κ → κ → Bool
  | .asc => le
  | .desc => fun a b => le b a

/-- Python string comparison: lexicographic by code point. -/
def charListLe : List Char → List Char → Bool
  | [], _ => true
  | _ :: _, [] => false
  | a :: as, b :: bs => if a < b then true else if b < a then false else charListLe as bs

/-- `a <= b` on Python strings. -/
def strLe (a b : String) : Bool := charListLe a.data b.data

/-- `_order_string(order, array) = sorted(array, key=lambda x: x, reverse=order=="desc")`. -/
def orderString (order : SortDir) (array : List String) : List String :=
  sortByKey (dirLe strLe order) (fun x => x) array

/-- `_order_number(order, array) = sorted(array, key=lambda x: x, reverse=order=="desc")`. -/
def orderNumber (order : SortDir) (array : List ℚ) : List ℚ :=
  sortByKey (dirLe (fun a b : ℚ => decide (a ≤ b)) order) (fun x => x) array

/-- The string-valued file attribute keys accepted by `_order_file`. -/
def fileOrderStringKeys : List String :=
  ["name", "type", "extension", "mime_type", "transfer_method", "url"]

/-- `_order_file`: sort by an extracted string attribute, or by `size`; an
unrecognized order key raises `InvalidKeyError`. -/
def orderFile (order : SortDir) (order_by : String) (array : List File) :
    Except PyErr (List File) :=
  if order_by ∈ fileOrderStringKeys then
    (getFileExtractStringFunc order_by).map
      (fun ef => sortByKey (dirLe strLe order) ef array)
  else if order_by = "size" then
    (getFileExtractNumberFunc order_by).map
      (fun ef => sortByKey (dirLe (fun a b : Int => decide (a ≤ b)) order) ef array)
  else .error .invalidKeyError

/-- Modelled from the spec: the Segment hierarchy of `core/variables` is not among the
sources.  A Segment pairs a value with its element category; besides the three
supported array kinds and the Any-kind array, the engine carries non-array segments
(none / string / integer / object), relevant only to the controller's truthiness and
type guards. -/
inductive Segment
  | arrayFile (value : List File)
  | arrayNumber (value : List ℚ)
  | arrayString (value : List String)
  | arrayAny (value : List Unit)
  | noneSeg
  | stringSeg (value : String)
  | integerSeg (value : Int)
  | objectSeg (keys : List String)
deriving DecidableEq, Repr

/-- The element category tag of a segment. -/
inductive SegKind
  | fileK
  | numberK
  | stringK
  | anyK
  | noneK
  | strScalarK
  | intScalarK
  | objK
deriving DecidableEq, Repr

/-- `elementKind` of a segment. -/
def Segment.kind : Segment → SegKind
  | .arrayFile _ => .fileK
  | .arrayNumber _ => .numberK
  | .arrayString _ => .stringK
  | .arrayAny _ => .anyK
  | .noneSeg => .noneK
  | .stringSeg _ => .strScalarK
  | .integerSeg _ => .intScalarK
  | .objectSeg _ => .objK

/-- `isinstance(variable, ArraySegment)`. -/
def Segment.isArraySegment : Segment → Bool
  | .arrayFile _ => true
  | .arrayNumber _ => true
  | .arrayString _ => true
  | .arrayAny _ => true
  | _ => false

/-- `isinstance(variable, ArrayFileSegment | ArrayNumberSegment | ArrayStringSegment)`. -/
def Segment.isSupportedArray : Segment → Bool
  | .arrayFile _ => true
  | .arrayNumber _ => true
  | .arrayString _ => true
  | _ => false

/-- Python truthiness of `variable.value`: an empty sequence, empty string, zero,
`None` or empty mapping is falsy. -/
def Segment.valueTruthy : Segment → Bool
  | .arrayFile v => !v.isEmpty
  | .arrayNumber v => !v.isEmpty
  | .arrayString v => !v.isEmpty
  | .arrayAny v => !v.isEmpty
  | .noneSeg => false
  | .stringSeg s => !(s = "")
  | .integerSeg n => !(n = 0)
  | .objectSeg ks => !ks.isEmpty

/-- `variable.model_copy(update={"value": []})` on an array segment. -/
def Segment.emptyCopy : Segment → Segment
  | .arrayFile _ => .arrayFile []
  | .arrayNumber _ => .arrayNumber []
  | .arrayString _ => .arrayString []
  | .arrayAny _ => .arrayAny []
  | s => s

/-- An element of one of the three supported array kinds, used for the
`first_record` / `last_record` outputs and for kind-independent statements. -/
inductive Elem
  | file (f : File)
  | num (q : ℚ)
  | str (s : String)
deriving DecidableEq, Repr

/-- The elements of a supported array segment, uniformly typed. -/
def Segment.elems : Segment → List Elem
  | .arrayFile v => v.map Elem.file
  | .arrayNumber v => v.map Elem.num
  | .arrayString v => v.map Elem.str
  | _ => []

/-- Filtering a supported array segment by an element predicate
(`variable.model_copy(update={"value": list(filter(...))})`). -/
def Segment.filterElems (p : Elem → Bool) : Segment → Segment
  | .arrayFile v => .arrayFile (v.filter (fun f => p (.file f)))
  | .arrayNumber v => .arrayNumber (v.filter (fun q => p (.num q)))
  | .arrayString v => .arrayString (v.filter (fun s => p (.str s)))
  | s => s

/-- Modelled from the spec: a FilterCondition
`{ key? (File kind only), comparisonOperator, operand }` (`entities.py` is not among
the sources). -/
structure FilterCondition where
  key : String
  comparison_operator : String
  value : CondValue
deriving DecidableEq, Repr

/-- Modelled from the spec: the filter stage configuration — an enabled flag and an
ordered sequence of conditions. -/
structure FilterBy where
  enabled : Bool
  conditions : List FilterCondition
deriving DecidableEq, Repr

/-- Modelled from the spec: the ExtractSpec — an enabled flag and a template
resolving to a 1-based integer serial. -/
structure ExtractBy where
  enabled : Bool
  serial : String
deriving Repr

/-- Modelled from the spec: the OrderSpec — an enabled flag, a direction, and (File
kind) the attribute key to sort by. -/
structure OrderBy where
  enabled : Bool
  key : String
  value : SortDir
deriving Repr

/-- Modelled from the spec: the LimitSpec — an enabled flag and a non-negative size. -/
structure Limit where
  enabled : Bool
  size : Nat
deriving Repr

/-- Modelled from the spec: the ListOperatorNodeData configuration record
(`entities.py` is not among the sources). -/
structure ListOperatorNodeData where
  filter_by : FilterBy
  extract_by : ExtractBy
  order_by : OrderBy
  limit : Limit
deriving Repr

/-- The string-valued keys of the first branch of `_get_file_filter_func`. -/
def fileFilterStringKeys : List String := ["name", "extension", "mime_type", "url"]

/-- The enum-valued keys of the second branch of `_get_file_filter_func`. -/
def fileFilterSeqKeys : List String := ["type", "transfer_method"]

/-- `_get_file_filter_func`: key dispatch happens at construction time, but the inner
comparison function is built *inside* the returned lambda, so operator and numeric
parse errors are raised per element at filter time — hence the `Except` on the
returned function.  A Python `str` is a `Sequence`, so a string operand for the keys
`type` / `transfer_method` reaches the sequence branch with the string as container. -/
def getFileFilterFunc (key condition : String) (value : CondValue) :
    Except PyErr (File → Except PyErr Bool) :=
  match value with
  | .cstr s =>
    if key ∈ fileFilterStringKeys then
      (getFileExtractStringFunc key).map
        (fun ef => fun x => (getStringFilterFunc condition s).map (fun sf => sf (ef x)))
    else if key ∈ fileFilterSeqKeys then
      (getFileExtractStringFunc key).map
        (fun ef => fun x =>
          (getSequenceFilterFunc condition (.cstr s)).map (fun sf => sf (ef x)))
    else if key = "size" then
      (getFileExtractNumberFunc key).map
        (fun ef => fun x =>
          match parseFloatStr s with
          | some q => (getNumberFilterFunc condition q).map (fun nf => nf ((ef x : Int) : ℚ))
          | none => .error .valueError)
    else .error .invalidKeyError
  | .cseq l =>
    if key ∈ fileFilterSeqKeys then
      (getFileExtractStringFunc key).map
        (fun ef => fun x =>
          (getSequenceFilterFunc condition (.cseq l)).map (fun sf => sf (ef x)))
    else .error .invalidKeyError

/-- `list(filter(f, v))` where `f` may raise: elements are tested left to right and
the first raised exception propagates. -/
def filterE {α : Type} (f : α → Except PyErr Bool) : List α → Except PyErr (List α)
  | [] => .ok []
  | x :: xs => (f x).bind (fun b => (filterE f xs).map (fun r => if b then x :: r else r))

/-- One iteration of the `_apply_filter` loop: dispatch on the array kind, resolve the
operand template, build the comparison function, filter, and copy the segment with
the narrowed value.  Number operands go through `float(...)`, whose parse failure is
a bare `ValueError`. -/
def applyCond (resolve : String → String) (c : FilterCondition) (seg : Segment) :
    Except PyErr Segment :=
  match seg with
  | .arrayString v =>
    match c.value with
    | .cstr t =>
      (getStringFilterFunc c.comparison_operator (resolve t)).map
        (fun f => .arrayString (v.filter f))
    | .cseq _ => .error .invalidFilterValueError
  | .arrayNumber v =>
    match c.value with
    | .cstr t =>
      match parseFloatStr (resolve t) with
      | some q =>
        (getNumberFilterFunc c.comparison_operator q).map
          (fun f => .arrayNumber (v.filter f))
      | none => .error .valueError
    | .cseq _ => .error .invalidFilterValueError
  | .arrayFile v =>
    (getFileFilterFunc c.key c.comparison_operator
        (match c.value with
         | .cstr t => .cstr (resolve t)
         | .cseq l => .cseq l)).bind
      (fun f => (filterE f v).map (fun r => .arrayFile r))
  | s => .ok s

/-- `_apply_filter`: conditions are applied in sequence, each narrowing the previous
result. -/
def applyFilter (resolve : String → String) (conds : List FilterCondition)
    (seg : Segment) : Except PyErr Segment :=
  match conds with
  | [] => .ok seg
  | c :: cs => (applyCond resolve c seg).bind (applyFilter resolve cs)

/-- `_apply_order`: dispatch on the array kind; only the File kind can fail (invalid
order key). -/
def applyOrder (ob : OrderBy) (seg : Segment) : Except PyErr Segment :=
  match seg with
  | .arrayString v => .ok (.arrayString (orderString ob.value v))
  | .arrayNumber v => .ok (.arrayNumber (orderNumber ob.value v))
  | .arrayFile v => (orderFile ob.value ob.key v).map (fun r => .arrayFile r)
  | s => .ok s

/-- `_apply_slice`: `variable.value[:size]`. -/
def applySlice (size : Nat) : Segment → Segment
  | .arrayFile v => .arrayFile (v.take size)
  | .arrayNumber v => .arrayNumber (v.take size)
  | .arrayString v => .arrayString (v.take size)
  | .arrayAny v => .arrayAny (v.take size)
  | s => s

/-- The bounds-checked 1-based selection of `_extract_slice`: `serial < 1` raises a
bare `ValueError`, `serial > len(value)` raises the typed `InvalidKeyError`, and in
range the result is the singleton `[value[serial - 1]]`. -/
def extractList {α : Type} (serial : Int) (v : List α) : Except PyErr (List α) :=
  if serial < 1 then .error .valueError
  else if h : serial.toNat - 1 < v.length then .ok [v.get ⟨serial.toNat - 1, h⟩]
  else .error .invalidKeyError

/-- `_extract_slice`: resolve the serial template, parse it with `int(...)` (a bare
`ValueError` on failure), bounds-check, and copy the segment with the singleton
value. -/
def extractSlice (resolve : String → String) (serialTemplate : String)
    (seg : Segment) : Except PyErr Segment :=
  match parseIntStr (resolve serialTemplate) with
  | none => .error .valueError
  | some n =>
    match seg with
    | .arrayFile v => (extractList n v).map (fun r => .arrayFile r)
    | .arrayNumber v => (extractList n v).map (fun r => .arrayNumber r)
    | .arrayString v => (extractList n v).map (fun r => .arrayString r)
    | s => .ok s

/-- The success outputs of a run. -/
structure Outputs where
  result : Segment
  first_record : Option Elem
  last_record : Option Elem
deriving DecidableEq, Repr

/-- Terminal status of a run. -/
inductive RunStatus
  | succeeded
  | failed
deriving DecidableEq, Repr

/-- The error recorded in a failed run result. -/
inductive RunError
  | variableNotFound
  | unsupportedVariableType
  | operatorError (e : PyErr)
deriving DecidableEq, Repr

/-- `NodeRunResult`, restricted to the fields the claims are about. -/
structure NodeRunResult where
  status : RunStatus
  error : Option RunError
  outputs : Option Outputs
deriving DecidableEq, Repr

/-- The stage pipeline inside `_run`'s `try` block: Filter → Extract → Order → Limit
in that fixed order, each stage skipped when its enabled flag is false. -/
def runPipeline (data : ListOperatorNodeData) (resolve : String → String)
    (seg : Segment) : Except PyErr Segment := do
  let seg ← if data.filter_by.enabled then
      applyFilter resolve data.filter_by.conditions seg
    else pure seg
  let seg ← if data.extract_by.enabled then
      extractSlice resolve data.extract_by.serial seg
    else pure seg
  let seg ← if data.order_by.enabled then applyOrder data.order_by seg else pure seg
  pure (if data.limit.enabled then applySlice data.limit.size seg else seg)

/-- `ListOperatorNode._run`.  The resolved variable is passed in (`none` models a
missing binding), `resolve` embeds `variable_pool.convert_template(...).text`.  A
raised exception that is a `ListOperatorError` is converted to a FAILED result;
any other exception escapes `_run` as `Except.error` — a hard fault to the invoking
scheduler. -/
def runNode (data : ListOperatorNodeData) (resolve : String → String)
    (variableOpt : Option Segment) : Except PyErr NodeRunResult :=
  match variableOpt with
  | none => .ok ⟨.failed, some .variableNotFound, none⟩
  | some var =>
    if !var.valueTruthy then
      .ok ⟨.succeeded, none,
        some ⟨if var.isArraySegment then var.emptyCopy else .arrayAny [],
          none, none⟩⟩
    else if !var.isSupportedArray then
      .ok ⟨.failed, some .unsupportedVariableType, none⟩
    else
      match runPipeline data resolve var with
      | .ok v => .ok ⟨.succeeded, none, some ⟨v, v.elems.head?, v.elems.getLast?⟩⟩
      | .error e =>
        if e.isListOperatorError then .ok ⟨.failed, some (.operatorError e), none⟩
        else .error e

/-- The boolean a possibly-raising element test returned, `false` as a placeholder on
the (never-used) raising case. -/
def pfOf {α : Type} (f : α → Except PyErr Bool) (x : α) : Bool :=
  match f x with
  | .ok b => b
  | .error _ => false

/-- A sort key value: the string, numeric or integer attribute an element is ordered
by. -/
inductive SortKeyV
  | sk (s : String)
  | nk (q : ℚ)
  | ik (n : Int)
deriving DecidableEq, Repr

/-- The string attribute a file is ordered by under an order key (defaulting where
the extractor would have raised; such keys never reach a sort). -/
def fileStringAttr (okey : String) (f : File) : String :=
  match getFileExtractStringFunc okey with
  | .ok ef => ef f
  | .error _ => ""

/-- The sort key of an element under the order stage's key configuration: strings and
numbers order by natural value, files by the extracted attribute (`size` is the one
integer-valued key). -/
def sortKeyOf (okey : String) : Elem → SortKeyV
  | .str s => .sk s
  | .num q => .nk q
  | .file f => if okey = "size" then .ik f.size else .sk (fileStringAttr okey f)

/-- The identity template resolver, used for concrete runs whose operands are
literals. -/
def idResolve : String → String := fun t => t

/-- A configuration with every stage disabled. -/
def offCfg : ListOperatorNodeData :=
  ⟨⟨false, []⟩, ⟨false, "1"⟩, ⟨false, "", .asc⟩, ⟨false, 0⟩⟩

/-- Extract enabled with literal serial 3, all other stages disabled. -/
def c1cfg : ListOperatorNodeData :=
  ⟨⟨false, []⟩, ⟨true, "3"⟩, ⟨false, "", .asc⟩, ⟨false, 0⟩⟩

/-- Extract enabled with literal serial 0, all other stages disabled. -/
def c1cfg0 : ListOperatorNodeData :=
  ⟨⟨false, []⟩, ⟨true, "0"⟩, ⟨false, "", .asc⟩, ⟨false, 0⟩⟩

/-- A number-kind filter on the literal operand `"abc"`, which does not parse. -/
def c5cfg : ListOperatorNodeData :=
  ⟨⟨true, [⟨"", "=", CondValue.cstr ("abc")⟩]⟩, ⟨false, "1"⟩, ⟨false, "", .asc⟩,
    ⟨false, 0⟩⟩

/-- A single string `contains` condition with literal operand `"a"`. -/
def c9conds : List FilterCondition :=
  [⟨"", "contains", CondValue.cstr ("a")⟩]

theorem charListLe_refl (l : List Char) : charListLe l l = true := by
  induction l with
  | nil => rfl
  | cons a as ih => simp [charListLe, ih]

theorem strLe_refl (s : String) : strLe s s = true :=
  charListLe_refl s.data

theorem dirLe_refl {κ : Type} (le : κ → κ → Bool) (hrefl : ∀ c, le c c = true)
    (d : SortDir) (c : κ) : dirLe le d c c = true := by
  cases d <;> simp [dirLe, hrefl]

theorem insertByKey_perm {α κ : Type} (le : κ → κ → Bool) (key : α → κ) (x : α)
    (l : List α) : (insertByKey le key x l).Perm (x :: l) := by
  induction l with
  | nil => simp [insertByKey]
  | cons y ys ih =>
    simp only [insertByKey]
    split
    · exact List.Perm.refl _
    · exact (List.Perm.cons y ih).trans (List.Perm.swap x y ys)

theorem sortByKey_perm {α κ : Type} (le : κ → κ → Bool) (key : α → κ)
    (l : List α) : (sortByKey le key l).Perm l := by
  induction l with
  | nil => exact List.Perm.refl _
  | cons x xs ih =>
    exact (insertByKey_perm le key x (sortByKey le key xs)).trans (ih.cons x)

theorem filter_insertByKey {α κ γ : Type} [DecidableEq γ] (le : κ → κ → Bool)
    (key : α → κ) (hfun : κ → γ) (k : γ)
    (hrefl : ∀ c, le c c = true) (hinj : ∀ c c', hfun c = hfun c' → c = c')
    (x : α) (l : List α) :
    (insertByKey le key x l).filter (fun a => decide (hfun (key a) = k)) =
      if hfun (key x) = k then
        x :: l.filter (fun a => decide (hfun (key a) = k))
      else l.filter (fun a => decide (hfun (key a) = k)) := by
  induction l with
  | nil =>
    simp only [insertByKey, List.filter]
    split <;> simp_all
  | cons y ys ih =>
    simp only [insertByKey]
    by_cases hle : le (key x) (key y) = true
    · rw [if_pos hle]
      by_cases hx : hfun (key x) = k
      · simp [List.filter_cons, hx]
      · simp [List.filter_cons, hx]
    · rw [if_neg hle]
      by_cases hx : hfun (key x) = k
      · have hy : ¬ hfun (key y) = k := by
          intro hy
          exact hle (by rw [hinj _ _ (hx.trans hy.symm)]; exact hrefl _)
        rw [if_pos hx]
        simp [List.filter_cons, hy, ih, hx]
      · rw [if_neg hx]
        by_cases hy : hfun (key y) = k <;> simp [List.filter_cons, hy, ih, hx]

theorem filter_sortByKey {α κ γ : Type} [DecidableEq γ] (le : κ → κ → Bool)
    (key : α → κ) (hfun : κ → γ) (k : γ)
    (hrefl : ∀ c, le c c = true) (hinj : ∀ c c', hfun c = hfun c' → c = c')
    (l : List α) :
    (sortByKey le key l).filter (fun a => decide (hfun (key a) = k)) =
      l.filter (fun a => decide (hfun (key a) = k)) := by
  induction l with
  | nil => rfl
  | cons x xs ih =>
    simp only [sortByKey]
    rw [filter_insertByKey le key hfun k hrefl hinj]
    by_cases hx : hfun (key x) = k <;> simp [List.filter_cons, hx, ih]

/-- C7: For String-kind filtering with the `in` operator, an element passes iff the
element string occurs inside the single resolved operand string — the operand is the
membership container, a substring-style check — and `not in` is exactly its
negation. -/
theorem c7_in_operator (value x : String) :
    ((getStringFilterFunc ("in") value).map (fun f => f x) = .ok true ↔
      ∃ p q, p ++ x.data ++ q = value.data) ∧
    ((getStringFilterFunc ("not in") value).map (fun f => f x) = .ok true ↔
      ¬ ∃ p q, p ++ x.data ++ q = value.data) := by
  have h1 : getStringFilterFunc ("in") value = .ok (strIn value) := rfl
  have h2 : getStringFilterFunc ("not in") value = .ok (fun y => !(strIn value y)) := rfl
  constructor
  · rw [h1]
    simp only [Except.map, Except.ok.injEq, strIn, decide_eq_true_eq]
    exact Iff.rfl
  · rw [h2]
    simp only [Except.map, Except.ok.injEq, strIn, Bool.not_eq_true',
      decide_eq_false_iff_not]
    exact Iff.rfl

/-- C4: On a length-n array, a resolved serial s with 1 ≤ s ≤ n extracts the
one-element array `[array[s-1]]`; serial 0 and serial n+1 both raise. -/
theorem c4_extract_bounds {α : Type} (v : List α) (s : Int) :
    (1 ≤ s → s ≤ (v.length : Int) →
      ∃ x, v[s.toNat - 1]? = some x ∧ extractList s v = .ok [x]) ∧
    extractList 0 v = .error .valueError ∧
    extractList ((v.length : Int) + 1) v = .error .invalidKeyError := by
  refine ⟨?_, ?_, ?_⟩
  · intro h1 h2
    have hlt : s.toNat - 1 < v.length := by omega
    refine ⟨v.get ⟨s.toNat - 1, hlt⟩, ?_, ?_⟩
    · simp [List.getElem?_eq_getElem hlt]
    · simp only [extractList]
      rw [if_neg (by omega), dif_pos hlt]
  · simp only [extractList]
    rw [if_pos (by norm_num)]
  · simp only [extractList]
    rw [if_neg (by omega), dif_neg (by omega)]

/-- Witness for C4 at a concrete input: serial 2 of a length-3 array selects the
second element, serial 0 raises. -/
theorem c4_extract_bounds_witness :
    extractList (2 : Int) ["a", "b", "c"] = .ok ["b"] ∧
    extractList (0 : Int) ["a", "b", "c"] = .error .valueError := by
  constructor
  · obtain ⟨x, hx, he⟩ :=
      (c4_extract_bounds ["a", "b", "c"] 2).1 (by norm_num) (by norm_num)
    have hb : (["a", "b", "c"] : List String)[(2 : Int).toNat - 1]? = some "b" := rfl
    have : x = "b" := (Option.some_inj.mp (hb.symm.trans hx)).symm
    rw [this] at he
    exact he
  · exact (c4_extract_bounds ["a", "b", "c"] 2).2.1

theorem ratLe_refl (c : ℚ) : (fun a b : ℚ => decide (a ≤ b)) c c = true :=
  decide_eq_true (le_refl c)

theorem intLe_refl (c : Int) : (fun a b : Int => decide (a ≤ b)) c c = true :=
  decide_eq_true (le_refl c)

theorem fileOrderKey_string (okey : String) (hk : okey ∈ fileOrderStringKeys) :
    okey ≠ "size" ∧
      ∃ ef, getFileExtractStringFunc okey = .ok ef ∧ ∀ f, fileStringAttr okey f = ef f := by
  simp only [fileOrderStringKeys, List.mem_cons, List.not_mem_nil, or_false] at hk
  rcases hk with rfl | rfl | rfl | rfl | rfl | rfl
  all_goals exact ⟨by decide, _, rfl, fun f => rfl⟩

/-- C6: The order stage is a stable sort in both directions: the output is a
permutation of the input (it is a sort), and filtering input and output to the
elements of any one sort key yields identical subsequences — any two elements with
equal sort keys keep their relative input order. -/
theorem c6_order_stable (ob : OrderBy) (seg seg' : Segment)
    (h : applyOrder ob seg = .ok seg') :
    seg'.elems.Perm seg.elems ∧
    ∀ k : SortKeyV,
      seg'.elems.filter (fun e => decide (sortKeyOf ob.key e = k)) =
        seg.elems.filter (fun e => decide (sortKeyOf ob.key e = k)) := by
  cases seg with
  | arrayString v =>
    simp only [applyOrder, Except.ok.injEq] at h
    subst h
    simp only [Segment.elems, orderString]
    refine ⟨List.Perm.map _ (sortByKey_perm _ _ v), fun k => ?_⟩
    rw [List.filter_map, List.filter_map]
    exact congrArg (List.map Elem.str)
      (filter_sortByKey (dirLe strLe ob.value) (fun x => x) SortKeyV.sk k
        (dirLe_refl strLe strLe_refl ob.value) (fun c c' hcc => by injection hcc) v)
  | arrayNumber v =>
    simp only [applyOrder, Except.ok.injEq] at h
    subst h
    simp only [Segment.elems, orderNumber]
    refine ⟨List.Perm.map _ (sortByKey_perm _ _ v), fun k => ?_⟩
    rw [List.filter_map, List.filter_map]
    exact congrArg (List.map Elem.num)
      (filter_sortByKey (dirLe (fun a b : ℚ => decide (a ≤ b)) ob.value) (fun x => x)
        SortKeyV.nk k (dirLe_refl _ ratLe_refl ob.value)
        (fun c c' hcc => by injection hcc) v)
  | arrayFile v =>
    simp only [applyOrder] at h
    by_cases hk : ob.key ∈ fileOrderStringKeys
    · obtain ⟨hsize, ef, hef, hattr⟩ := fileOrderKey_string ob.key hk
      rw [orderFile, if_pos hk, hef] at h
      simp only [Except.map, Except.ok.injEq] at h
      subst h
      simp only [Segment.elems]
      refine ⟨List.Perm.map _ (sortByKey_perm _ _ v), fun k => ?_⟩
      rw [List.filter_map, List.filter_map]
      have hstab := filter_sortByKey (dirLe strLe ob.value) ef SortKeyV.sk k
        (dirLe_refl strLe strLe_refl ob.value) (fun c c' hcc => by injection hcc) v
      simp only [Function.comp_def, sortKeyOf, hsize, if_false, hattr]
      exact congrArg (List.map Elem.file) hstab
    · by_cases hsz : ob.key = "size"
      · rw [orderFile, if_neg hk, if_pos hsz] at h
        rw [hsz, getFileExtractNumberFunc, if_pos rfl] at h
        simp only [Except.map, Except.ok.injEq] at h
        subst h
        simp only [Segment.elems]
        refine ⟨List.Perm.map _ (sortByKey_perm _ _ v), fun k => ?_⟩
        rw [List.filter_map, List.filter_map]
        have hstab := filter_sortByKey
          (dirLe (fun a b : Int => decide (a ≤ b)) ob.value) (fun x => x.size)
          SortKeyV.ik k (dirLe_refl _ intLe_refl ob.value)
          (fun c c' hcc => by injection hcc) v
        simp only [Function.comp_def, sortKeyOf, hsz, if_true]
        exact congrArg (List.map Elem.file) hstab
      · rw [orderFile, if_neg hk, if_neg hsz] at h
        simp [Except.map] at h
  | arrayAny v =>
    simp only [applyOrder, Except.ok.injEq] at h
    subst h
    exact ⟨List.Perm.refl _, fun k => rfl⟩
  | noneSeg =>
    simp only [applyOrder, Except.ok.injEq] at h
    subst h
    exact ⟨List.Perm.refl _, fun k => rfl⟩
  | stringSeg s =>
    simp only [applyOrder, Except.ok.injEq] at h
    subst h
    exact ⟨List.Perm.refl _, fun k => rfl⟩
  | integerSeg n =>
    simp only [applyOrder, Except.ok.injEq] at h
    subst h
    exact ⟨List.Perm.refl _, fun k => rfl⟩
  | objectSeg ks =>
    simp only [applyOrder, Except.ok.injEq] at h
    subst h
    exact ⟨List.Perm.refl _, fun k => rfl⟩

/-- Witness for C6 at a concrete input: ascending order of `[2, 1]`. -/
theorem c6_order_stable_witness :
    (Segment.arrayNumber [1, 2]).elems.Perm (Segment.arrayNumber [2, 1]).elems ∧
    (Segment.arrayNumber [1, 2]).elems.filter
        (fun e => decide (sortKeyOf "" e = SortKeyV.nk 1)) =
      (Segment.arrayNumber [2, 1]).elems.filter
        (fun e => decide (sortKeyOf "" e = SortKeyV.nk 1)) := by
  have h := c6_order_stable ⟨true, "", .asc⟩ (Segment.arrayNumber [2, 1])
    (Segment.arrayNumber [1, 2]) (by rfl)
  exact ⟨h.1, h.2 (SortKeyV.nk 1)⟩

theorem except_map_ok {ε α β : Type} {f : α → β} {e : Except ε α} {b : β}
    (h : e.map f = .ok b) : ∃ a, e = .ok a ∧ b = f a := by
  cases e with
  | error err => simp [Except.map] at h
  | ok a => exact ⟨a, rfl, by simpa [Except.map] using h.symm⟩

theorem except_bind_ok {ε α β : Type} {g : α → Except ε β} {e : Except ε α} {b : β}
    (h : e.bind g = .ok b) : ∃ a, e = .ok a ∧ g a = .ok b := by
  cases e with
  | error err => simp [Except.bind] at h
  | ok a => exact ⟨a, rfl, by simpa [Except.bind] using h⟩

theorem except_pure_eq {ε α : Type} (a : α) : (pure a : Except ε α) = .ok a := rfl

theorem except_bind_ok_eq {ε α β : Type} (g : α → Except ε β) (a : α) :
    (Except.ok a : Except ε α) >>= g = g a := rfl

theorem except_bind_error_eq {ε α β : Type} (g : α → Except ε β) (e : ε) :
    (Except.error e : Except ε α) >>= g = .error e := rfl

theorem except_fmap_ok_eq {ε α β : Type} (f : α → β) (a : α) :
    f <$> (Except.ok a : Except ε α) = .ok (f a) := rfl

theorem except_fmap_error_eq {ε α β : Type} (f : α → β) (e : ε) :
    f <$> (Except.error e : Except ε α) = .error e := rfl

theorem except_map_error_eq {ε α β : Type} (f : α → β) (e : ε) :
    Except.map f (Except.error e : Except ε α) = .error e := rfl

theorem applyCond_kind (resolve : String → String) (c : FilterCondition)
    (seg seg' : Segment) (h : applyCond resolve c seg = .ok seg') :
    seg'.kind = seg.kind := by
  obtain ⟨ck, cop, cval⟩ := c
  cases seg with
  | arrayString v =>
    cases cval with
    | cstr t =>
      simp only [applyCond] at h
      obtain ⟨f, hf, rfl⟩ := except_map_ok h
      rfl
    | cseq l => exact absurd h (by simp [applyCond])
  | arrayNumber v =>
    cases cval with
    | cstr t =>
      simp only [applyCond] at h
      cases hp : parseFloatStr (resolve t) with
      | none => rw [hp] at h; exact absurd h (by simp)
      | some q =>
        rw [hp] at h
        obtain ⟨f, hf, rfl⟩ := except_map_ok h
        rfl
    | cseq l => exact absurd h (by simp [applyCond])
  | arrayFile v =>
    simp only [applyCond] at h
    obtain ⟨f, hf, h2⟩ := except_bind_ok h
    obtain ⟨r, hr, rfl⟩ := except_map_ok h2
    rfl
  | arrayAny v => simp only [applyCond, Except.ok.injEq] at h; subst h; rfl
  | noneSeg => simp only [applyCond, Except.ok.injEq] at h; subst h; rfl
  | stringSeg s => simp only [applyCond, Except.ok.injEq] at h; subst h; rfl
  | integerSeg n => simp only [applyCond, Except.ok.injEq] at h; subst h; rfl
  | objectSeg ks => simp only [applyCond, Except.ok.injEq] at h; subst h; rfl

theorem applyFilter_kind (resolve : String → String) (conds : List FilterCondition)
    (seg seg' : Segment) (h : applyFilter resolve conds seg = .ok seg') :
    seg'.kind = seg.kind := by
  induction conds generalizing seg with
  | nil =>
    simp only [applyFilter, Except.ok.injEq] at h
    subst h
    rfl
  | cons c cs ih =>
    simp only [applyFilter] at h
    obtain ⟨mid, hmid, h2⟩ := except_bind_ok h
    exact (ih mid h2).trans (applyCond_kind resolve c seg mid hmid)

theorem extractSlice_kind (resolve : String → String) (serialT : String)
    (seg seg' : Segment) (h : extractSlice resolve serialT seg = .ok seg') :
    seg'.kind = seg.kind := by
  simp only [extractSlice] at h
  cases hp : parseIntStr (resolve serialT) with
  | none => rw [hp] at h; exact absurd h (by simp)
  | some n =>
    rw [hp] at h
    cases seg with
    | arrayFile v => obtain ⟨r, hr, rfl⟩ := except_map_ok h; rfl
    | arrayNumber v => obtain ⟨r, hr, rfl⟩ := except_map_ok h; rfl
    | arrayString v => obtain ⟨r, hr, rfl⟩ := except_map_ok h; rfl
    | arrayAny v => simp only [Except.ok.injEq] at h; subst h; rfl
    | noneSeg => simp only [Except.ok.injEq] at h; subst h; rfl
    | stringSeg s => simp only [Except.ok.injEq] at h; subst h; rfl
    | integerSeg n => simp only [Except.ok.injEq] at h; subst h; rfl
    | objectSeg ks => simp only [Except.ok.injEq] at h; subst h; rfl

theorem applyOrder_kind (ob : OrderBy) (seg seg' : Segment)
    (h : applyOrder ob seg = .ok seg') : seg'.kind = seg.kind := by
  cases seg with
  | arrayFile v =>
    simp only [applyOrder] at h
    obtain ⟨r, hr, rfl⟩ := except_map_ok h
    rfl
  | arrayString v => simp only [applyOrder, Except.ok.injEq] at h; subst h; rfl
  | arrayNumber v => simp only [applyOrder, Except.ok.injEq] at h; subst h; rfl
  | arrayAny v => simp only [applyOrder, Except.ok.injEq] at h; subst h; rfl
  | noneSeg => simp only [applyOrder, Except.ok.injEq] at h; subst h; rfl
  | stringSeg s => simp only [applyOrder, Except.ok.injEq] at h; subst h; rfl
  | integerSeg n => simp only [applyOrder, Except.ok.injEq] at h; subst h; rfl
  | objectSeg ks => simp only [applyOrder, Except.ok.injEq] at h; subst h; rfl

theorem applySlice_kind (size : Nat) (seg : Segment) :
    (applySlice size seg).kind = seg.kind := by
  cases seg <;> rfl

/-- C8: every pipeline stage preserves the element kind of the segment — filter,
extract (its singleton output included), order and limit all return a segment of the
same kind as their input. -/
theorem c8_kind_preserved (resolve : String → String) (conds : List FilterCondition)
    (serialT : String) (ob : OrderBy) (size : Nat) (seg sf se so : Segment) :
    (applyFilter resolve conds seg = .ok sf → sf.kind = seg.kind) ∧
    (extractSlice resolve serialT seg = .ok se → se.kind = seg.kind) ∧
    (applyOrder ob seg = .ok so → so.kind = seg.kind) ∧
    (applySlice size seg).kind = seg.kind :=
  ⟨applyFilter_kind resolve conds seg sf,
   extractSlice_kind resolve serialT seg se,
   applyOrder_kind ob seg so,
   applySlice_kind size seg⟩

/-- Witness for C8 at a concrete input: the four stages on a string array. -/
theorem c8_kind_preserved_witness :
    ((Segment.arrayString ["ab"]).kind = (Segment.arrayString ["ab", "b"]).kind) ∧
    ((Segment.arrayString ["ab"]).kind = (Segment.arrayString ["ab", "b"]).kind) ∧
    ((Segment.arrayString ["ab", "b"]).kind = (Segment.arrayString ["ab", "b"]).kind) ∧
    (applySlice 1 (Segment.arrayString ["ab", "b"])).kind =
      (Segment.arrayString ["ab", "b"]).kind := by
  have h := c8_kind_preserved idResolve c9conds "1" ⟨true, "", SortDir.asc⟩ 1
    (Segment.arrayString ["ab", "b"]) (Segment.arrayString ["ab"])
    (Segment.arrayString ["ab"]) (Segment.arrayString ["ab", "b"])
  exact ⟨h.1 (by rfl), h.2.1 (by rfl), h.2.2.1 (by rfl), h.2.2.2⟩

/-- C2: with every stage's enabled flag false the pipeline is a pass-through: on any
non-empty supported array the run succeeds with the input array unchanged,
`first_record` its first element and `last_record` its last. -/
theorem c2_disabled_passthrough (data : ListOperatorNodeData)
    (resolve : String → String) (seg : Segment)
    (hf : data.filter_by.enabled = false) (he : data.extract_by.enabled = false)
    (ho : data.order_by.enabled = false) (hl : data.limit.enabled = false)
    (hsup : seg.isSupportedArray = true) (hne : seg.elems ≠ []) :
    runNode data resolve (some seg) =
      .ok ⟨.succeeded, none, some ⟨seg, seg.elems.head?, seg.elems.getLast?⟩⟩ := by
  have htr : seg.valueTruthy = true := by
    cases seg <;>
      simp_all [Segment.elems, Segment.valueTruthy, Segment.isSupportedArray]
  have hpipe : runPipeline data resolve seg = .ok seg := by
    simp [runPipeline, hf, he, ho, hl, except_pure_eq, except_bind_ok_eq]
  simp [runNode, htr, hsup, hpipe]

/-- Witness for C2 at a concrete input. -/
theorem c2_disabled_passthrough_witness :
    runNode offCfg idResolve (some (Segment.arrayString ["x", "y"])) =
      .ok ⟨.succeeded, none,
        some ⟨Segment.arrayString ["x", "y"],
          (Segment.arrayString ["x", "y"]).elems.head?,
          (Segment.arrayString ["x", "y"]).elems.getLast?⟩⟩ :=
  c2_disabled_passthrough offCfg idResolve _ rfl rfl rfl rfl rfl
    (by simp [Segment.elems])

/-- C3: a resolved variable holding an empty array short-circuits: success, the empty
input array itself as result, `first_record = last_record = null`, for every
configuration — no stage ever runs. -/
theorem c3_empty_short_circuit (data : ListOperatorNodeData)
    (resolve : String → String) (seg : Segment)
    (harr : seg.isArraySegment = true) (hempty : seg.valueTruthy = false) :
    runNode data resolve (some seg) =
      .ok ⟨.succeeded, none, some ⟨seg, none, none⟩⟩ := by
  have hcopy : seg.emptyCopy = seg := by
    cases seg <;>
      simp_all [Segment.isArraySegment, Segment.valueTruthy, Segment.emptyCopy]
  simp [runNode, hempty, harr, hcopy]

/-- Witness for C3 at a concrete input. -/
theorem c3_empty_short_circuit_witness :
    runNode offCfg idResolve (some (Segment.arrayNumber [])) =
      .ok ⟨.succeeded, none, some ⟨Segment.arrayNumber [], none, none⟩⟩ :=
  c3_empty_short_circuit offCfg idResolve _ rfl rfl

/-- C10: the falsy short-circuit precedes the supported-kind type guard: every falsy
resolved variable — array or not — yields a Succeeded result with an empty result
array (an empty copy for array segments, an empty Any-kind array otherwise) and null
first/last records, never the unsupported-type failure. -/
theorem c10_falsy_before_type_guard (data : ListOperatorNodeData)
    (resolve : String → String) (seg : Segment) (hfalsy : seg.valueTruthy = false) :
    runNode data resolve (some seg) =
      .ok ⟨.succeeded, none,
        some ⟨if seg.isArraySegment then seg.emptyCopy else .arrayAny [],
          none, none⟩⟩ := by
  simp [runNode, hfalsy]

/-- Witness for C10 at a concrete input: an unsupported falsy scalar segment. -/
theorem c10_falsy_before_type_guard_witness :
    runNode offCfg idResolve (some (Segment.stringSeg "")) =
      .ok ⟨.succeeded, none, some ⟨.arrayAny [], none, none⟩⟩ :=
  c10_falsy_before_type_guard offCfg idResolve (Segment.stringSeg "") rfl

/-- C1 (counterexample): with extract enabled and resolved serial 3 on a length-2
array — an out-of-range serial — the run returns a structured FAILED result (the
typed `InvalidKeyError` is caught), not a hard fault. -/
theorem c1_counterexample :
    runNode c1cfg idResolve (some (Segment.arrayString ["a", "b"])) =
      .ok ⟨.failed, some (.operatorError .invalidKeyError), none⟩ := by
  rfl

/-- C1 (amended): only a resolved serial below 1 raises the generic untyped error
that escapes the structured-failure handler as a hard fault; a serial above the
array length raises the typed `InvalidKeyError`, which the handler catches into a
structured FAILED result. -/
theorem c1_amended (data : ListOperatorNodeData) (resolve : String → String)
    (seg : Segment) (s : Int)
    (hf : data.filter_by.enabled = false) (he : data.extract_by.enabled = true)
    (hp : parseIntStr (resolve data.extract_by.serial) = some s)
    (hsup : seg.isSupportedArray = true) (htr : seg.valueTruthy = true) :
    (s < 1 → runNode data resolve (some seg) = .error .valueError) ∧
    ((seg.elems.length : Int) < s →
      runNode data resolve (some seg) =
        .ok ⟨.failed, some (.operatorError .invalidKeyError), none⟩) := by
  constructor
  · intro hs
    have hex : extractSlice resolve data.extract_by.serial seg = .error .valueError := by
      rw [extractSlice, hp]
      cases seg <;>
        simp_all [Segment.isSupportedArray, extractList, hs, except_map_error_eq]
    have hpipe : runPipeline data resolve seg = .error .valueError := by
      simp [runPipeline, hf, he, hex, except_pure_eq, except_bind_ok_eq,
        except_bind_error_eq, except_fmap_error_eq]
    simp [runNode, htr, hsup, hpipe, PyErr.isListOperatorError]
  · intro hs
    have hex : extractSlice resolve data.extract_by.serial seg =
        .error .invalidKeyError := by
      rw [extractSlice, hp]
      cases seg with
      | arrayFile v =>
        simp only [Segment.elems, List.length_map] at hs
        simp only [extractList]
        rw [if_neg (by omega), dif_neg (by omega)]
        rfl
      | arrayNumber v =>
        simp only [Segment.elems, List.length_map] at hs
        simp only [extractList]
        rw [if_neg (by omega), dif_neg (by omega)]
        rfl
      | arrayString v =>
        simp only [Segment.elems, List.length_map] at hs
        simp only [extractList]
        rw [if_neg (by omega), dif_neg (by omega)]
        rfl
      | arrayAny v => simp [Segment.isSupportedArray] at hsup
      | noneSeg => simp [Segment.isSupportedArray] at hsup
      | stringSeg s => simp [Segment.isSupportedArray] at hsup
      | integerSeg n => simp [Segment.isSupportedArray] at hsup
      | objectSeg ks => simp [Segment.isSupportedArray] at hsup
    have hpipe : runPipeline data resolve seg = .error .invalidKeyError := by
      simp [runPipeline, hf, he, hex, except_pure_eq, except_bind_ok_eq,
        except_bind_error_eq, except_fmap_error_eq]
    simp [runNode, htr, hsup, hpipe, PyErr.isListOperatorError]

/-- Witness for C1 (amended): serial 0 hard-faults, serial 3 on a length-1 array is
caught into a FAILED result. -/
theorem c1_amended_witness :
    runNode c1cfg0 idResolve (some (Segment.arrayString ["a"])) = .error .valueError ∧
    runNode c1cfg idResolve (some (Segment.arrayString ["a"])) =
      .ok ⟨.failed, some (.operatorError .invalidKeyError), none⟩ := by
  constructor
  · exact (c1_amended c1cfg0 idResolve (Segment.arrayString ["a"]) 0
      rfl rfl rfl rfl rfl).1 (by norm_num)
  · exact (c1_amended c1cfg idResolve (Segment.arrayString ["a"]) 3
      rfl rfl rfl rfl rfl).2 (by decide)

/-- C5 (counterexample): a Number-kind filter whose resolved operand `"abc"` does not
parse makes the run raise an uncaught generic error — a hard fault — rather than
return a structured Failed result. -/
theorem c5_counterexample :
    runNode c5cfg idResolve (some (Segment.arrayNumber [1])) = .error .valueError := by
  rfl

/-- C5 (amended): for Number-kind filtering, a resolved operand that does not parse
as a numeric value raises the generic untyped error of `float(...)`, which the
structured-failure handler does not catch: the run propagates a hard fault instead
of returning a Failed result. -/
theorem c5_amended (data : ListOperatorNodeData) (resolve : String → String)
    (v : List ℚ) (c : FilterCondition) (cs : List FilterCondition) (t : String)
    (hf : data.filter_by.enabled = true)
    (hc : data.filter_by.conditions = c :: cs)
    (hv : c.value = .cstr t)
    (hp : parseFloatStr (resolve t) = none)
    (hne : v ≠ []) :
    runNode data resolve (some (.arrayNumber v)) = .error .valueError := by
  have htr : (Segment.arrayNumber v).valueTruthy = true := by
    simp [Segment.valueTruthy, hne]
  have hcond : applyCond resolve c (.arrayNumber v) = .error .valueError := by
    obtain ⟨ck, cop, cval⟩ := c
    simp only at hv
    subst hv
    simp only [applyCond, hp]
  have hfil : applyFilter resolve data.filter_by.conditions (.arrayNumber v) =
      .error .valueError := by
    rw [hc]
    simp [applyFilter, hcond, Except.bind]
  have hpipe : runPipeline data resolve (.arrayNumber v) = .error .valueError := by
    simp [runPipeline, hf, hfil, except_bind_error_eq]
  simp [runNode, htr, hpipe, PyErr.isListOperatorError, Segment.isSupportedArray]

/-- Witness for C5 (amended) at a concrete input. -/
theorem c5_amended_witness :
    runNode c5cfg idResolve (some (Segment.arrayNumber [2])) = .error .valueError :=
  c5_amended c5cfg idResolve [2] ⟨"", "=", CondValue.cstr ("abc")⟩ [] "abc"
    rfl rfl rfl rfl (by simp)

theorem filterE_eq {α : Type} (f : α → Except PyErr Bool) (p : α → Bool)
    (w : List α) (hw : ∀ x ∈ w, f x = .ok (p x)) :
    filterE f w = .ok (w.filter p) := by
  induction w with
  | nil => rfl
  | cons x xs ih =>
    simp only [filterE]
    rw [hw x (List.mem_cons_self x xs), ih (fun y hy => hw y (List.mem_cons_of_mem x hy))]
    simp only [Except.bind, Except.map, List.filter_cons]

theorem filterE_ok_forall {α : Type} (f : α → Except PyErr Bool) (v : List α)
    (r : List α) (h : filterE f v = .ok r) : ∀ x ∈ v, f x = .ok (pfOf f x) := by
  induction v generalizing r with
  | nil => intro x hx; cases hx
  | cons y ys ih =>
    simp only [filterE] at h
    cases hf : f y with
    | error e => rw [hf] at h; simp [Except.bind] at h
    | ok b =>
      rw [hf] at h
      simp only [Except.bind] at h
      obtain ⟨rr, hrr, hr2⟩ := except_map_ok h
      intro x hx
      rcases List.mem_cons.mp hx with rfl | hx2
      · rw [hf]; simp [pfOf, hf]
      · exact ih rr hrr x hx2

theorem filterE_ok_eq {α : Type} (f : α → Except PyErr Bool) (v : List α)
    (r : List α) (h : filterE f v = .ok r) : r = v.filter (pfOf f) := by
  have h2 := filterE_eq f (pfOf f) v (filterE_ok_forall f v r h)
  rw [h] at h2
  exact (Except.ok.injEq _ _).mp h2

theorem filterElems_comp (p q : Elem → Bool) (seg : Segment) :
    (seg.filterElems p).filterElems q = seg.filterElems (fun e => p e && q e) := by
  cases seg with
  | arrayFile v =>
    simp only [Segment.filterElems, List.filter_filter]
    exact congrArg Segment.arrayFile (List.filter_congr (fun a ha => Bool.and_comm _ _))
  | arrayNumber v =>
    simp only [Segment.filterElems, List.filter_filter]
    exact congrArg Segment.arrayNumber (List.filter_congr (fun a ha => Bool.and_comm _ _))
  | arrayString v =>
    simp only [Segment.filterElems, List.filter_filter]
    exact congrArg Segment.arrayString (List.filter_congr (fun a ha => Bool.and_comm _ _))
  | arrayAny v => rfl
  | noneSeg => rfl
  | stringSeg s => rfl
  | integerSeg n => rfl
  | objectSeg ks => rfl

theorem filterElems_congr (p q : Elem → Bool) (h : ∀ e, p e = q e) (seg : Segment) :
    seg.filterElems p = seg.filterElems q := by
  cases seg with
  | arrayFile v =>
    exact congrArg Segment.arrayFile (List.filter_congr (fun a ha => h _))
  | arrayNumber v =>
    exact congrArg Segment.arrayNumber (List.filter_congr (fun a ha => h _))
  | arrayString v =>
    exact congrArg Segment.arrayString (List.filter_congr (fun a ha => h _))
  | arrayAny v => rfl
  | noneSeg => rfl
  | stringSeg s => rfl
  | integerSeg n => rfl
  | objectSeg ks => rfl

theorem filterElems_id (seg : Segment) : seg.filterElems (fun _ => true) = seg := by
  cases seg <;> simp [Segment.filterElems]

theorem applyCond_ok_decomp (resolve : String → String) (c : FilterCondition)
    (seg seg' : Segment) (hap : applyCond resolve c seg = .ok seg') :
    ∃ p : Elem → Bool, seg' = seg.filterElems p ∧
      ∀ r : Elem → Bool,
        applyCond resolve c (seg.filterElems r) =
          .ok ((seg.filterElems r).filterElems p) := by
  obtain ⟨ck, cop, cval⟩ := c
  cases seg with
  | arrayString v =>
    cases cval with
    | cstr t =>
      simp only [applyCond] at hap ⊢
      obtain ⟨f, hf, rfl⟩ := except_map_ok hap
      refine ⟨fun e => match e with | .str s => f s | _ => false, rfl, fun r => ?_⟩
      simp only [Segment.filterElems]
      rw [hf]
      rfl
    | cseq l => simp [applyCond] at hap
  | arrayNumber v =>
    cases cval with
    | cstr t =>
      simp only [applyCond] at hap ⊢
      cases hp : parseFloatStr (resolve t) with
      | none => rw [hp] at hap; exact absurd hap (by simp)
      | some q =>
        rw [hp] at hap
        obtain ⟨f, hf, rfl⟩ := except_map_ok hap
        refine ⟨fun e => match e with | .num x => f x | _ => false, rfl, fun r => ?_⟩
        simp only [Segment.filterElems]
        rw [hf]
        rfl
    | cseq l => simp [applyCond] at hap
  | arrayFile v =>
    simp only [applyCond] at hap ⊢
    obtain ⟨f, hf, h2⟩ := except_bind_ok hap
    obtain ⟨rr, hrr, rfl⟩ := except_map_ok h2
    have hall := filterE_ok_forall f v rr hrr
    have hreq := filterE_ok_eq f v rr hrr
    refine ⟨fun e => match e with | .file x => pfOf f x | _ => false, ?_, fun r => ?_⟩
    · rw [hreq]; rfl
    · simp only [Segment.filterElems]
      rw [hf]
      simp only [Except.bind]
      rw [filterE_eq f (pfOf f) _
        (fun x hx => hall x (List.mem_of_mem_filter hx))]
      rfl
  | arrayAny v =>
    simp only [applyCond, Except.ok.injEq] at hap
    subst hap
    exact ⟨fun _ => true, rfl, fun r => rfl⟩
  | noneSeg =>
    simp only [applyCond, Except.ok.injEq] at hap
    subst hap
    exact ⟨fun _ => true, rfl, fun r => rfl⟩
  | stringSeg s =>
    simp only [applyCond, Except.ok.injEq] at hap
    subst hap
    exact ⟨fun _ => true, rfl, fun r => rfl⟩
  | integerSeg n =>
    simp only [applyCond, Except.ok.injEq] at hap
    subst hap
    exact ⟨fun _ => true, rfl, fun r => rfl⟩
  | objectSeg ks =>
    simp only [applyCond, Except.ok.injEq] at hap
    subst hap
    exact ⟨fun _ => true, rfl, fun r => rfl⟩

theorem applyFilter_ok_decomp (resolve : String → String)
    (conds : List FilterCondition) (seg t : Segment)
    (h : applyFilter resolve conds seg = .ok t) :
    ∃ P : Elem → Bool, t = seg.filterElems P ∧
      ∀ r : Elem → Bool,
        applyFilter resolve conds (seg.filterElems r) =
          .ok ((seg.filterElems r).filterElems P) := by
  induction conds generalizing seg t with
  | nil =>
    simp only [applyFilter, Except.ok.injEq] at h
    subst h
    refine ⟨fun _ => true, (filterElems_id seg).symm, fun r => ?_⟩
    simp only [applyFilter, filterElems_id]
  | cons c cs ih =>
    simp only [applyFilter] at h ⊢
    obtain ⟨mid, hmid, h2⟩ := except_bind_ok h
    obtain ⟨p, hmid_eq, hcond⟩ := applyCond_ok_decomp resolve c seg mid hmid
    subst hmid_eq
    obtain ⟨q, ht_eq, hrec⟩ := ih (seg.filterElems p) t h2
    have hcomm : ∀ r : Elem → Bool,
        (seg.filterElems r).filterElems p = (seg.filterElems p).filterElems r := by
      intro r
      rw [filterElems_comp, filterElems_comp]
      exact filterElems_congr _ _ (fun e => Bool.and_comm _ _) seg
    refine ⟨fun e => p e && q e, ?_, fun r => ?_⟩
    · rw [ht_eq, filterElems_comp]
    · rw [hcond r]
      simp only [Except.bind]
      rw [hcomm r, hrec r]
      congr 1
      rw [← hcomm r, filterElems_comp]

/-- C9: the filter stage is idempotent — re-applying the same condition sequence
(with the same resolved operands) to its own successful output returns that output
unchanged. -/
theorem c9_filter_idempotent (resolve : String → String)
    (conds : List FilterCondition) (seg seg' : Segment)
    (h : applyFilter resolve conds seg = .ok seg') :
    applyFilter resolve conds seg' = .ok seg' := by
  obtain ⟨P, rfl, hrec⟩ := applyFilter_ok_decomp resolve conds seg seg' h
  have hP := hrec P
  have heq : (seg.filterElems P).filterElems P = seg.filterElems P := by
    rw [filterElems_comp]
    exact filterElems_congr _ _ (fun e => Bool.and_self _) seg
  rw [heq] at hP
  exact hP

/-- Witness for C9 at a concrete input: a `contains` filter already applied once. -/
theorem c9_filter_idempotent_witness :
    applyFilter idResolve c9conds (Segment.arrayString ["ab"]) =
      .ok (Segment.arrayString ["ab"]) :=
  c9_filter_idempotent idResolve c9conds (Segment.arrayString ["ab", "b"])
    (Segment.arrayString ["ab"]) (by rfl)

end ListOperator
